import Mathlib

/-!
# Verification of the knowledge-repository manager

Shallow embedding of `src/dummy_project/src/utils.py` (class `KnowledgeManager`):
a CRUD layer over two on-disk directories, `articles/` (body text files keyed
by identifier) and `metadata/` (JSON sidecar records keyed by identifier).

Modelling decisions:
* The disk state is a `Store`: two association lists in directory-listing
  order, one mapping identifiers to body strings, one mapping identifiers to
  parsed `Metadata` records.  A key is present exactly when the file exists.
* Timestamps are natural numbers (an abstract monotone clock); the ISO-8601 /
  `strftime` renderings are abstracted, and the identifier produced by
  `datetime.now().strftime("%Y%m%d_%H%M%S")` is modelled as `toString now`
  (an injective rendering of the clock value, as the format is at second
  granularity).  Each operation takes the current clock value `now`
  explicitly.
* Python exceptions (`IndexError` from `lines[0]`, `FileNotFoundError` while
  a search reads a body file) are modelled with `Except`.
* `str.lower` is modelled by `strLower` (character-wise `Char.toLower`), and
  the Python substring test `q in s` by `containsSub` on the character lists.
-/

/-- The metadata sidecar record, as written by `create_article` and rewritten
by `update_article` (`title`, `created_at`, `tags`, `last_modified`). -/
structure Metadata where
  title : String
  created_at : Nat
  tags : List String
  last_modified : Nat
deriving DecidableEq

/-- The on-disk state: the `articles/` directory (identifier to body text)
and the `metadata/` directory (identifier to metadata record), each as an
association list in directory-listing order. -/
structure Store where
  articles : List (String × String)
  metas : List (String × Metadata)
deriving DecidableEq

/-- Reading a file from a directory: the value at the first matching key,
`none` when no such file exists (`os.path.exists` is false). -/
def lookup {α : Type} : List (String × α) → String → Option α
  | [], _ => none
  | (k, v) :: rest, key => if k = key then some v else lookup rest key

/-- Writing a file into a directory: replaces the contents if the file
exists (keeping its directory position), otherwise creates it. -/
def writeFile {α : Type} : List (String × α) → String → α → List (String × α)
  | [], key, v => [(key, v)]
  | (k, w) :: rest, key, v =>
      if k = key then (key, v) :: rest else (k, w) :: writeFile rest key v

/-- `isPrefixB q h` is the Boolean test that `q` is a prefix of `h`. -/
def isPrefixB : List Char → List Char → Bool
  | [], _ => true
  | _ :: _, [] => false
  | a :: as, b :: bs => a = b && isPrefixB as bs

/-- `containsSub q h` models the Python substring test `q in h` on character
lists: `q` occurs contiguously somewhere in `h`. -/
def containsSub (q : List Char) : List Char → Bool
  | [] => q.isEmpty
  | b :: bs => isPrefixB q (b :: bs) || containsSub q bs

/-- `str.lower()`: lower-casing character by character (the same function as
`String.toLower`, written as a list map so that it reduces in the kernel). -/
def strLower (s : String) : String :=
  ⟨s.data.map Char.toLower⟩

/-- The match test of `search_articles`:
`query.lower() in content.lower()`. -/
def matchesQuery (query content : String) : Bool :=
  containsSub (strLower query).data (strLower content).data

/-- The tag filter of `search_articles`:
`tags is None or any(tag in metadata["tags"] for tag in tags)`. -/
def tagFilter (tags : Option (List String)) (mdTags : List String) : Bool :=
  match tags with
  | none => true
  | some ts => ts.any (fun t => mdTags.contains t)

/-- `lines[0]` of Python `readlines` on a nonempty file: the first line
including its terminating newline when there is one. -/
def firstLineAux : List Char → List Char
  | [] => []
  | c :: cs => if c = '\n' then [c] else c :: firstLineAux cs

/-- String-level wrapper for `firstLineAux`. -/
def firstLine (s : String) : String :=
  ⟨firstLineAux s.data⟩

/-- The first line of a string in the usual sense: the characters strictly
before the first newline.  Used to state properties about bodies. -/
def firstTextAux : List Char → List Char
  | [] => []
  | c :: cs => if c = '\n' then [] else c :: firstTextAux cs

/-- String-level wrapper for `firstTextAux`. -/
def firstLineText (s : String) : String :=
  ⟨firstTextAux s.data⟩

/-- `KnowledgeManager.create_article`: writes the body file
`"# {title}\n\n{content}"` and the metadata file
`{title, created_at = now, tags, last_modified = now}` under the identifier
derived from the current time; returns the identifier and the new state. -/
def create_article (s : Store) (title content : String) (tags : List String)
    (now : Nat) : String × Store :=
  let article_id := toString now
  let body := "# " ++ title ++ "\n\n" ++ content
  let s1 : Store := { s with articles := writeFile s.articles article_id body }
  let metadata : Metadata :=
    { title := title, created_at := now, tags := tags, last_modified := now }
  let s2 : Store := { s1 with metas := writeFile s1.metas article_id metadata }
  (article_id, s2)

/-- The error raised by `update_article` on an empty body file
(`lines[0]` with `lines = []`). -/
inductive UpdError where
  | indexError
deriving DecidableEq

/-- `KnowledgeManager.update_article`: returns `false` (state unchanged) when
either file is missing; otherwise, when `content` is given, rewrites the body
file to `f"{title_line}\n{content}"` where `title_line = lines[0]` of the
existing body (raising `IndexError` when the body file is empty), and, when
`tags` is given, rewrites the metadata file with the new tags and
`last_modified = now`; returns `true`. -/
def update_article (s : Store) (article_id : String) (content : Option String)
    (tags : Option (List String)) (now : Nat) : Except UpdError (Bool × Store) :=
  match lookup s.articles article_id, lookup s.metas article_id with
  | some body, some metadata =>
      let step1 : Except UpdError Store :=
        match content with
        | none => Except.ok s
        | some c =>
            if body = "" then Except.error UpdError.indexError
            else
              let newBody := firstLine body ++ "\n" ++ c
              Except.ok { s with articles := writeFile s.articles article_id newBody }
      step1.bind (fun s1 =>
        let s2 : Store :=
          match tags with
          | none => s1
          | some ts =>
              let md2 : Metadata := { metadata with tags := ts, last_modified := now }
              { s1 with metas := writeFile s1.metas article_id md2 }
        Except.ok (true, s2))
  | _, _ => Except.ok (false, s)

/-- A search result: identifier plus the metadata fields.  Body content is
not a field of the record, exactly as in the source. -/
structure Summary where
  article_id : String
  title : String
  tags : List String
  created_at : Nat
  last_modified : Nat
deriving DecidableEq

/-- The summary `search_articles` appends for a matching article. -/
def mkSummary (article_id : String) (md : Metadata) : Summary :=
  { article_id := article_id, title := md.title, tags := md.tags,
    created_at := md.created_at, last_modified := md.last_modified }

/-- The scan loop of `search_articles` over the metadata directory entries:
for each entry, reads the body file (a missing body file raises and aborts
the whole search), then appends a summary when the query matches the body
and the tag filter passes. -/
def searchGo (arts : List (String × String)) (query : String)
    (tags : Option (List String)) :
    List (String × Metadata) → Except Unit (List Summary)
  | [] => Except.ok []
  | (article_id, md) :: rest =>
      match lookup arts article_id with
      | none => Except.error ()
      | some content =>
          match searchGo arts query tags rest with
          | Except.error e => Except.error e
          | Except.ok rs =>
              if matchesQuery query content && tagFilter tags md.tags then
                Except.ok (mkSummary article_id md :: rs)
              else Except.ok rs

/-- `KnowledgeManager.search_articles`: scans every metadata file in
directory order and returns the summaries of the matching articles; a body
file missing for some metadata entry raises for the whole search. -/
def search_articles (s : Store) (query : String)
    (tags : Option (List String)) : Except Unit (List Summary) :=
  searchGo s.articles query tags s.metas

/-- `KnowledgeManager.get_article`: `none` when either file is missing,
otherwise the full body text together with the metadata record. -/
def get_article (s : Store) (article_id : String) :
    Option (String × Metadata) :=
  match lookup s.articles article_id, lookup s.metas article_id with
  | some body, some metadata => some (body, metadata)
  | _, _ => none

/-! ## Helper lemmas -/

theorem string_eq_of_data {a b : String} (h : a.data = b.data) : a = b :=
  congrArg String.mk h

theorem lookup_writeFile_self {α : Type} (l : List (String × α)) (k : String)
    (v : α) : lookup (writeFile l k v) k = some v := by
  induction l with
  | nil => simp [writeFile, lookup]
  | cons p rest ih =>
      obtain ⟨k', w⟩ := p
      by_cases h : k' = k
      · simp [writeFile, lookup, h]
      · simp [writeFile, lookup, h, ih]

theorem isPrefixB_iff (q h : List Char) :
    isPrefixB q h = true ↔ ∃ r, h = q ++ r := by
  induction q generalizing h with
  | nil => simp [isPrefixB]
  | cons a as ih =>
      cases h with
      | nil =>
          simp [isPrefixB]
      | cons b bs =>
          simp only [isPrefixB, Bool.and_eq_true, decide_eq_true_eq, ih]
          constructor
          · rintro ⟨rfl, r, rfl⟩
            exact ⟨r, rfl⟩
          · rintro ⟨r, hr⟩
            cases hr
            exact ⟨rfl, r, rfl⟩

theorem containsSub_iff (q h : List Char) :
    containsSub q h = true ↔ ∃ l r, h = l ++ q ++ r := by
  induction h with
  | nil =>
      simp only [containsSub, List.isEmpty_iff]
      constructor
      · rintro rfl
        exact ⟨[], [], rfl⟩
      · rintro ⟨l, r, hr⟩
        have h2 := hr.symm
        simp only [List.append_eq_nil] at h2
        exact h2.1.2
  | cons b bs ih =>
      simp only [containsSub, Bool.or_eq_true, isPrefixB_iff, ih]
      constructor
      · rintro (⟨r, hr⟩ | ⟨l, r, hr⟩)
        · exact ⟨[], r, by simp [hr]⟩
        · exact ⟨b :: l, r, by simp [hr]⟩
      · rintro ⟨l, r, hr⟩
        cases l with
        | nil =>
            exact Or.inl ⟨r, by simpa using hr⟩
        | cons x xs =>
            simp only [List.cons_append, List.cons.injEq] at hr
            exact Or.inr ⟨xs, r, by simp [hr.2]⟩

theorem containsSub_nil (h : List Char) : containsSub [] h = true := by
  cases h <;> simp [containsSub, isPrefixB]

theorem tagFilter_iff (ts : Option (List String)) (mdTags : List String) :
    tagFilter ts mdTags = true ↔ ∀ l, ts = some l → ∃ t ∈ l, t ∈ mdTags := by
  cases ts with
  | none => simp [tagFilter]
  | some l =>
      simp only [tagFilter, List.any_eq_true, Option.some.injEq]
      constructor
      · rintro ⟨t, ht, hmem⟩ l' rfl
        exact ⟨t, ht, by simpa [List.contains] using hmem⟩
      · intro h
        obtain ⟨t, ht, hmem⟩ := h l rfl
        exact ⟨t, ht, by simpa [List.contains] using hmem⟩

theorem firstTextAux_no_newline (cs : List Char) :
    ∀ c ∈ firstTextAux cs, c ≠ '\n' := by
  induction cs with
  | nil => simp [firstTextAux]
  | cons c cs ih =>
      by_cases h : c = '\n'
      · simp [firstTextAux, h]
      · simp only [firstTextAux, if_neg h, List.mem_cons]
        rintro x (rfl | hx)
        · exact h
        · exact ih x hx

theorem firstLineAux_eq_of_mem (cs : List Char) (h : '\n' ∈ cs) :
    firstLineAux cs = firstTextAux cs ++ ['\n'] := by
  induction cs with
  | nil => cases h
  | cons c cs ih =>
      by_cases hc : c = '\n'
      · simp [firstLineAux, firstTextAux, hc]
      · have h' : '\n' ∈ cs := by
          rcases List.mem_cons.mp h with h1 | h1
          · exact absurd h1.symm hc
          · exact h1
        simp [firstLineAux, firstTextAux, hc, ih h']

theorem firstTextAux_append (a r : List Char) (ha : ∀ c ∈ a, c ≠ '\n') :
    firstTextAux (a ++ '\n' :: r) = a := by
  induction a with
  | nil => simp [firstTextAux]
  | cons c cs ih =>
      have hc : c ≠ '\n' := ha c (List.mem_cons_self c cs)
      simp only [List.cons_append, firstTextAux, if_neg hc, List.append_eq]
      rw [ih (fun x hx => ha x (List.mem_cons_of_mem c hx))]

theorem searchGo_ok_mem (arts : List (String × String)) (query : String)
    (ts : Option (List String)) (metas : List (String × Metadata))
    (rs : List Summary) (hok : searchGo arts query ts metas = Except.ok rs)
    (sm : Summary) :
    sm ∈ rs ↔ ∃ article_id md body, (article_id, md) ∈ metas ∧
      sm = mkSummary article_id md ∧
      lookup arts article_id = some body ∧
      matchesQuery query body = true ∧ tagFilter ts md.tags = true := by
  induction metas generalizing rs with
  | nil =>
      simp only [searchGo, Except.ok.injEq] at hok
      subst hok
      simp
  | cons p rest ih =>
      obtain ⟨article_id, md⟩ := p
      cases hbody : lookup arts article_id with
      | none =>
          simp only [searchGo, hbody] at hok
          cases hok
      | some body =>
          cases hrest : searchGo arts query ts rest with
          | error e =>
              simp only [searchGo, hbody, hrest] at hok
              cases hok
          | ok rs' =>
              simp only [searchGo, hbody, hrest] at hok
              by_cases hmatch :
                  (matchesQuery query body && tagFilter ts md.tags) = true
              · rw [if_pos hmatch] at hok
                injection hok with h1
                subst h1
                rw [Bool.and_eq_true] at hmatch
                simp only [List.mem_cons, ih rs' hrest]
                constructor
                · rintro (rfl | ⟨i, m, b, hm, hsm, hl, hq, ht⟩)
                  · exact ⟨article_id, md, body, Or.inl rfl, rfl, hbody,
                      hmatch.1, hmatch.2⟩
                  · exact ⟨i, m, b, Or.inr hm, hsm, hl, hq, ht⟩
                · rintro ⟨i, m, b, (hm | hm), hsm, hl, hq, ht⟩
                  · simp only [Prod.mk.injEq] at hm
                    obtain ⟨rfl, rfl⟩ := hm
                    exact Or.inl hsm
                  · exact Or.inr ⟨i, m, b, hm, hsm, hl, hq, ht⟩
              · rw [if_neg hmatch] at hok
                injection hok with h1
                subst h1
                rw [Bool.and_eq_true, not_and_or] at hmatch
                rw [ih rs' hrest]
                constructor
                · rintro ⟨i, m, b, hm, hsm, hl, hq, ht⟩
                  exact ⟨i, m, b, List.mem_cons_of_mem _ hm, hsm, hl, hq, ht⟩
                · rintro ⟨i, m, b, hm, hsm, hl, hq, ht⟩
                  rcases List.mem_cons.mp hm with hm' | hm'
                  · simp only [Prod.mk.injEq] at hm'
                    obtain ⟨rfl, rfl⟩ := hm'
                    rw [hbody] at hl
                    cases hl
                    cases hmatch with
                    | inl h => exact absurd hq h
                    | inr h => exact absurd ht h
                  · exact ⟨i, m, b, hm', hsm, hl, hq, ht⟩

theorem searchGo_error_of_missing (arts : List (String × String))
    (query : String) (ts : Option (List String))
    (metas : List (String × Metadata))
    (h : ∃ p ∈ metas, lookup arts p.1 = none) :
    searchGo arts query ts metas = Except.error () := by
  induction metas with
  | nil => simp at h
  | cons p rest ih =>
      obtain ⟨article_id, md⟩ := p
      rcases h with ⟨q, hq, hnone⟩
      rcases List.mem_cons.mp hq with rfl | hq'
      · simp only [searchGo]
        rw [hnone]
      · simp only [searchGo]
        cases hbody : lookup arts article_id with
        | none => rfl
        | some body =>
            rw [ih ⟨q, hq', hnone⟩]

theorem searchGo_ok_total (arts : List (String × String)) (query : String)
    (ts : Option (List String)) (metas : List (String × Metadata))
    (rs : List Summary) (hok : searchGo arts query ts metas = Except.ok rs) :
    ∀ p ∈ metas, ∃ b, lookup arts p.1 = some b := by
  intro p hp
  cases hl : lookup arts p.1 with
  | some b => exact ⟨b, rfl⟩
  | none =>
      rw [searchGo_error_of_missing arts query ts metas ⟨p, hp, hl⟩] at hok
      cases hok

/-! ## Concrete instances used in counterexamples and witnesses -/

/-- A sample metadata record. -/
def mdSample : Metadata :=
  { title := "T", created_at := 0, tags := ["x"], last_modified := 0 }

/-- A sample store holding one well-formed article (body written the way
`create_article` writes bodies). -/
def storeSample : Store :=
  { articles := [("a", "# T\n\nold body")], metas := [("a", mdSample)] }

/-! ## Claims -/

/-- Claim C1 as stated is false on the code: `get_article` returns the full
body text `"# {title}\n\n{content}"`, not the bare `content` argument.  At
`title = "t"`, `content = "c"`, `tags = ["x"]`, the content field of the
retrieved record is `"# t\n\nc"`, which differs from `"c"`. -/
theorem create_get_content_cex :
    (get_article (create_article { articles := [], metas := [] } "t" "c" ["x"] 5).2
        (create_article { articles := [], metas := [] } "t" "c" ["x"] 5).1).map Prod.fst
      = some "# t\n\nc" ∧ ("# t\n\nc" : String) ≠ "c" :=
  ⟨rfl, by decide⟩

/-- Claim C1 (amended): for every title, content and tag list, `get_article`
on the identifier returned by `create_article` yields a record whose content
equals the stored body `"# " ++ title ++ "\n\n" ++ content` (the heading line
built from the title, a blank line, then the content argument) and whose
metadata tags equal the original tag list. -/
theorem create_get_roundtrip (s : Store) (title content : String)
    (tags : List String) (now : Nat) :
    ∃ md : Metadata,
      get_article (create_article s title content tags now).2
          (create_article s title content tags now).1
        = some ("# " ++ title ++ "\n\n" ++ content, md) ∧ md.tags = tags := by
  refine ⟨⟨title, now, tags, now⟩, ?_, rfl⟩
  have h1 : lookup (writeFile s.articles (toString now)
        ("# " ++ title ++ "\n\n" ++ content)) (toString now)
      = some ("# " ++ title ++ "\n\n" ++ content) :=
    lookup_writeFile_self ..
  have h2 : lookup (writeFile s.metas (toString now)
        ⟨title, now, tags, now⟩) (toString now)
      = some (⟨title, now, tags, now⟩ : Metadata) :=
    lookup_writeFile_self ..
  simp only [create_article, get_article, h1, h2]

/-- Claim C2 as stated is false on the code: when the existing body is a
single line with no terminating newline, `lines[0]` is the whole body, and
the rewritten file is `body ++ "\n" ++ content` — the new content follows
after a single newline, with no blank line between the first line and the
new content.  Concretely, updating the body `"# T"` with content `"new"`
yields `"# T\nnew"`, not `"# T" ++ "\n\n" ++ "new"`. -/
theorem update_content_blankline_cex :
    update_article { articles := [("a", "# T")], metas := [("a", mdSample)] }
        "a" (some "new") none 3
      = Except.ok (true,
          { articles := [("a", "# T\nnew")], metas := [("a", mdSample)] }) ∧
    ("# T\nnew" : String) ≠ firstLineText "# T" ++ "\n\n" ++ "new" :=
  ⟨rfl, by decide⟩

/-- Claim C2 (amended): for every existing article whose body contains a
newline — which holds for every body ever written by `create_article` or
`update_article` — updating with new content rewrites the body so that its
first line is unchanged and everything after the first line is the new
content, separated from the first line by a blank line. -/
theorem update_content_preserves_title (s : Store) (article_id body : String)
    (md : Metadata) (c : String) (now : Nat)
    (ha : lookup s.articles article_id = some body)
    (hm : lookup s.metas article_id = some md)
    (hnl : '\n' ∈ body.data) :
    ∃ s2 : Store,
      update_article s article_id (some c) none now = Except.ok (true, s2) ∧
      lookup s2.articles article_id
        = some (firstLineText body ++ "\n\n" ++ c) ∧
      firstLineText (firstLineText body ++ "\n\n" ++ c) = firstLineText body := by
  have hne : body ≠ "" := by
    intro h
    subst h
    cases hnl
  have hbodyeq : firstLine body ++ "\n" ++ c
      = firstLineText body ++ "\n\n" ++ c := by
    apply string_eq_of_data
    show firstLineAux body.data ++ ['\n'] ++ c.data
      = firstTextAux body.data ++ ['\n', '\n'] ++ c.data
    rw [firstLineAux_eq_of_mem body.data hnl]
    simp
  refine ⟨Store.mk (writeFile s.articles article_id
      (firstLine body ++ "\n" ++ c)) s.metas, ?_, ?_, ?_⟩
  · simp only [update_article, ha, hm, if_neg hne]
    rfl
  · show lookup (writeFile s.articles article_id (firstLine body ++ "\n" ++ c))
      article_id = _
    rw [lookup_writeFile_self, hbodyeq]
  · apply string_eq_of_data
    show firstTextAux (firstTextAux body.data ++ ['\n', '\n'] ++ c.data)
      = firstTextAux body.data
    rw [List.append_assoc]
    exact firstTextAux_append (firstTextAux body.data) ('\n' :: c.data)
      (firstTextAux_no_newline body.data)

/-- Witness for the amended claim C2 at a concrete store. -/
theorem update_content_preserves_title_witness :
    ∃ s2 : Store,
      update_article storeSample "a" (some "new") none 3
        = Except.ok (true, s2) ∧
      lookup s2.articles "a"
        = some (firstLineText "# T\n\nold body" ++ "\n\n" ++ "new") ∧
      firstLineText (firstLineText "# T\n\nold body" ++ "\n\n" ++ "new")
        = firstLineText "# T\n\nold body" :=
  update_content_preserves_title storeSample "a" "# T\n\nold body" mdSample
    "new" 3 rfl rfl (by decide)

/-- Claim C3: when a search returns normally, a summary is in the result
list exactly when its article has a metadata entry and a body file, the
lower-cased query occurs as a contiguous substring of the lower-cased body,
and — when a tag filter is supplied — some filter tag occurs (exact string
match) in the article's tag list.  The summary carries exactly the
identifier and the four metadata fields (the `Summary` record has no body
field). -/
theorem search_articles_spec (s : Store) (query : String)
    (ts : Option (List String)) (results : List Summary) (sm : Summary)
    (hok : search_articles s query ts = Except.ok results) :
    sm ∈ results ↔ ∃ article_id md body,
      (article_id, md) ∈ s.metas ∧ sm = mkSummary article_id md ∧
      lookup s.articles article_id = some body ∧
      (∃ l r, (strLower body).data = l ++ (strLower query).data ++ r) ∧
      (∀ fl, ts = some fl → ∃ t ∈ fl, t ∈ md.tags) := by
  rw [search_articles] at hok
  have h := searchGo_ok_mem s.articles query ts s.metas results hok sm
  rw [h]
  constructor
  · rintro ⟨i, m, b, hm, hsm, hl, hq, ht⟩
    exact ⟨i, m, b, hm, hsm, hl,
      (containsSub_iff (strLower query).data (strLower b).data).mp hq,
      (tagFilter_iff ts m.tags).mp ht⟩
  · rintro ⟨i, m, b, hm, hsm, hl, hq, ht⟩
    exact ⟨i, m, b, hm, hsm, hl,
      (containsSub_iff (strLower query).data (strLower b).data).mpr hq,
      (tagFilter_iff ts m.tags).mpr ht⟩

/-- Witness for claim C3: a concrete one-article store searched with a
matching query and no tag filter. -/
theorem search_articles_spec_witness :
    mkSummary "a" mdSample ∈ [mkSummary "a" mdSample] ↔
      ∃ article_id md body,
        (article_id, md) ∈ storeSample.metas ∧
        mkSummary "a" mdSample = mkSummary article_id md ∧
        lookup storeSample.articles article_id = some body ∧
        (∃ l r, (strLower body).data = l ++ (strLower "t").data ++ r) ∧
        (∀ fl, (none : Option (List String)) = some fl →
          ∃ t ∈ fl, t ∈ md.tags) :=
  search_articles_spec storeSample "t" none [mkSummary "a" mdSample]
    (mkSummary "a" mdSample) rfl

/-- Claim C4: when either the body file or the metadata file is missing,
`update_article` returns `false` with the store unchanged and `get_article`
returns `none`; neither raises.  (Conversely, a result other than these is
only possible when both files are present, so both operations treat an
article as existing only when both files exist.) -/
theorem missing_files_soft (s : Store) (article_id : String)
    (content : Option String) (tags : Option (List String)) (now : Nat)
    (h : lookup s.articles article_id = none ∨
      lookup s.metas article_id = none) :
    update_article s article_id content tags now = Except.ok (false, s) ∧
    get_article s article_id = none := by
  cases ha : lookup s.articles article_id with
  | none => exact ⟨by simp only [update_article, ha], by simp only [get_article, ha]⟩
  | some body =>
      cases hm : lookup s.metas article_id with
      | none =>
          exact ⟨by simp only [update_article, ha, hm],
            by simp only [get_article, ha, hm]⟩
      | some md =>
          rcases h with h | h
          · rw [ha] at h; cases h
          · rw [hm] at h; cases h

/-- Witness for claim C4: the empty store has neither file for any
identifier. -/
theorem missing_files_soft_witness :
    update_article { articles := [], metas := [] } "nonexistent_id"
        (some "x") none 3
      = Except.ok (false, { articles := [], metas := [] }) ∧
    get_article { articles := [], metas := [] } "nonexistent_id" = none :=
  missing_files_soft { articles := [], metas := [] } "nonexistent_id"
    (some "x") none 3 (Or.inl rfl)

/-- Claim C5: a tag-only update on an existing article returns `true`,
leaves the body directory untouched, and rewrites the metadata with the
title and creation time unchanged, the tags replaced wholesale, and
`last_modified` set to the current time, which is at least the previous
`last_modified` whenever the clock has not gone backwards. -/
theorem update_tags_frame (s : Store) (article_id body : String)
    (md : Metadata) (ts : List String) (now : Nat)
    (ha : lookup s.articles article_id = some body)
    (hm : lookup s.metas article_id = some md)
    (hmono : md.last_modified ≤ now) :
    ∃ s2 : Store, ∃ md2 : Metadata,
      update_article s article_id none (some ts) now = Except.ok (true, s2) ∧
      s2.articles = s.articles ∧
      lookup s2.metas article_id = some md2 ∧
      md2.title = md.title ∧ md2.created_at = md.created_at ∧
      md2.tags = ts ∧ md2.last_modified = now ∧
      md.last_modified ≤ md2.last_modified := by
  refine ⟨Store.mk s.articles (writeFile s.metas article_id
      ⟨md.title, md.created_at, ts, now⟩),
      ⟨md.title, md.created_at, ts, now⟩, ?_, rfl, ?_, rfl, rfl, rfl, rfl,
      hmono⟩
  · simp only [update_article, ha, hm]
    rfl
  · show lookup (writeFile s.metas article_id
      ⟨md.title, md.created_at, ts, now⟩) article_id = _
    rw [lookup_writeFile_self]

/-- Witness for claim C5 at a concrete store. -/
theorem update_tags_frame_witness :
    ∃ s2 : Store, ∃ md2 : Metadata,
      update_article storeSample "a" none (some ["y", "z"]) 7
        = Except.ok (true, s2) ∧
      s2.articles = storeSample.articles ∧
      lookup s2.metas "a" = some md2 ∧
      md2.title = mdSample.title ∧ md2.created_at = mdSample.created_at ∧
      md2.tags = ["y", "z"] ∧ md2.last_modified = 7 ∧
      mdSample.last_modified ≤ md2.last_modified :=
  update_tags_frame storeSample "a" "# T\n\nold body" mdSample ["y", "z"] 7
    rfl rfl (by decide)

/-- Claim C6: when some metadata entry has no corresponding body file, the
whole search raises (propagates the read error) instead of skipping the
entry or returning partial results. -/
theorem search_missing_body_error (s : Store) (query : String)
    (ts : Option (List String)) (article_id : String) (md : Metadata)
    (hmem : (article_id, md) ∈ s.metas)
    (hmiss : lookup s.articles article_id = none) :
    search_articles s query ts = Except.error () := by
  rw [search_articles]
  exact searchGo_error_of_missing s.articles query ts s.metas
    ⟨(article_id, md), hmem, hmiss⟩

/-- Witness for claim C6: a store with an orphan metadata file. -/
theorem search_missing_body_error_witness :
    search_articles { articles := [], metas := [("a", mdSample)] } "q" none
      = Except.error () :=
  search_missing_body_error { articles := [], metas := [("a", mdSample)] }
    "q" none "a" mdSample (List.mem_cons_self ..) rfl

/-- Claim C7: when both files exist, an update with neither content nor
tags returns `true` and leaves the store — both the body file and the
metadata file — exactly as it was. -/
theorem noop_update (s : Store) (article_id body : String) (md : Metadata)
    (now : Nat)
    (ha : lookup s.articles article_id = some body)
    (hm : lookup s.metas article_id = some md) :
    update_article s article_id none none now = Except.ok (true, s) := by
  simp only [update_article, ha, hm]
  rfl

/-- Witness for claim C7 at a concrete store. -/
theorem noop_update_witness :
    update_article storeSample "a" none none 9 = Except.ok (true, storeSample) :=
  noop_update storeSample "a" "# T\n\nold body" mdSample 9 rfl rfl

/-- Claim C8: when a search for the empty query with no tag filter returns
normally, every article in the store (every metadata directory entry) gets
a summary in the result list: the empty substring occurs in every body. -/
theorem search_empty_query_all (s : Store) (results : List Summary)
    (article_id : String) (md : Metadata)
    (hok : search_articles s "" none = Except.ok results)
    (hmem : (article_id, md) ∈ s.metas) :
    mkSummary article_id md ∈ results := by
  rw [search_articles] at hok
  obtain ⟨b, hb⟩ :=
    searchGo_ok_total s.articles "" none s.metas results hok (article_id, md)
      hmem
  rw [searchGo_ok_mem s.articles "" none s.metas results hok]
  exact ⟨article_id, md, b, hmem, rfl, hb,
    containsSub_nil (strLower b).data, rfl⟩

/-- Witness for claim C8 at a concrete store. -/
theorem search_empty_query_all_witness :
    mkSummary "a" mdSample ∈ [mkSummary "a" mdSample] :=
  search_empty_query_all storeSample [mkSummary "a" mdSample] "a" mdSample
    rfl (List.mem_cons_self ..)

/-- Claim C9: on an article whose body file exists but is empty (zero
lines) and whose metadata file exists, a content update raises `IndexError`
(from `lines[0]`) instead of returning a success flag. -/
theorem update_empty_body_error (s : Store) (article_id : String)
    (md : Metadata) (c : String) (now : Nat)
    (ha : lookup s.articles article_id = some "")
    (hm : lookup s.metas article_id = some md) :
    update_article s article_id (some c) none now
      = Except.error UpdError.indexError := by
  simp only [update_article, ha, hm]
  rfl

/-- Witness for claim C9: a store with an empty body file. -/
theorem update_empty_body_error_witness :
    update_article { articles := [("a", "")], metas := [("a", mdSample)] }
        "a" (some "new") none 3
      = Except.error UpdError.indexError :=
  update_empty_body_error { articles := [("a", "")], metas := [("a", mdSample)] }
    "a" mdSample "new" 3 rfl rfl

/-- Claim C10: a search whose tag filter is the empty list returns the
empty result list whenever it returns at all — `any` over an empty filter
is false, so the empty filter excludes every article instead of behaving
like no filter. -/
theorem search_empty_filter_empty (s : Store) (query : String)
    (results : List Summary)
    (hok : search_articles s query (some []) = Except.ok results) :
    results = [] := by
  rw [search_articles] at hok
  cases results with
  | nil => rfl
  | cons sm rest =>
      exfalso
      have hmem : sm ∈ sm :: rest := List.mem_cons_self ..
      rw [searchGo_ok_mem s.articles query (some []) s.metas (sm :: rest) hok
        sm] at hmem
      obtain ⟨i, m, b, _, _, _, _, ht⟩ := hmem
      simp [tagFilter] at ht

/-- Witness for claim C10 at a concrete store whose article matches the
query but is excluded by the empty filter. -/
theorem search_empty_filter_empty_witness : ([] : List Summary) = [] :=
  search_empty_filter_empty storeSample "t" [] rfl
